import Mathlib

/-!
Verification development for the `node-minifier-cli` repository.

The definitions below are a shallow embedding of `src/minifier.js` (the
functions `isIgnored`, `processFile`, `traverseAndMinifyDirectory`) and of the
pure pattern-loading logic of the CLI entry point (`loadIgnoreFile`, the
`--ignore` option accumulation).  The byte-level minifiers (terser, cssnano,
html-minifier-terser) are external collaborators of the program and are
modelled as opaque function parameters (`Minifiers`).  The `path` module of
Node.js (POSIX flavour, `path.sep = "/"`) and the `minimatch` pattern matcher
(as invoked by the repository: options `{ dot: true }`) are dependencies of
the code under `src/`; they are embedded here for the feature subset the
repository exercises, following the published algorithms of those libraries.

Filesystem actions of `processFile` are reified as an effect trace
(`FsEff`): the single read, recursive directory creations, and file writes,
plus the call into the external minifier with the exact content handed over.
-/

set_option maxHeartbeats 4000000

namespace NM

/-- JavaScript `String.prototype.split(sep)` for a single-character
separator: keeps empty pieces, `""` splits to `[""]`. -/
def splitOnCharGo (sep : Char) : List Char → List Char → List String
  | [], acc => [String.mk acc.reverse]
  | c :: rest, acc =>
    if c = sep then String.mk acc.reverse :: splitOnCharGo sep rest []
    else splitOnCharGo sep rest (c :: acc)

/-- JavaScript `s.split(sep)` for a one-character separator. -/
def splitOnChar (sep : Char) (s : String) : List String :=
  splitOnCharGo sep s.toList []

/-- Strip a literal from the front of a character list (`none` when it is
not a prefix). -/
def dropLit : List Char → List Char → Option (List Char)
  | [], cs => some cs
  | _ :: _, [] => none
  | l :: ls, c :: cs => if l = c then dropLit ls cs else none

/-- `s.startsWith(pre)`. -/
def strStartsWith (s pre : String) : Bool :=
  (dropLit pre.toList s.toList).isSome

/-- `s.endsWith(suf)`. -/
def strEndsWith (s suf : String) : Bool :=
  (dropLit suf.toList.reverse s.toList.reverse).isSome

/-- Drop the last `n` characters of a string. -/
def strDropRight (s : String) (n : Nat) : String :=
  String.mk (s.toList.take (s.toList.length - n))

/-- `String.prototype.toLowerCase` restricted to the ASCII range, which is
all the code applies it to (file extensions). -/
def strToLower (s : String) : String :=
  String.mk (s.toList.map Char.toLower)

/-- `s.replace(/\\/g, '/')` — backslash normalisation done by `isIgnored`. -/
def replaceBackslashes (s : String) : String :=
  String.mk (s.toList.map (fun c => if c = '\\' then '/' else c))

/-- Remove trailing `'/'` characters (used by the `path` model, which like
Node ignores trailing separators when taking basename/dirname). -/
def dropTrailingSlashes (cs : List Char) : List Char :=
  (cs.reverse.dropWhile (fun c => c = '/')).reverse

/-- Characters of the last path component (input already has no trailing
slashes). -/
def baseNameChars (cs : List Char) : List Char :=
  (cs.reverse.takeWhile (fun c => c ≠ '/')).reverse

/-- Node `path.basename(p)` (POSIX). -/
def basename (p : String) : String :=
  String.mk (baseNameChars (dropTrailingSlashes p.toList))

/-- Node `path.basename(p, ext)` (POSIX): additionally strips `ext` when it
is a proper suffix of the basename (and the path itself is not `ext`). -/
def basenameExt (p ext : String) : String :=
  if ext ≠ "" ∧ ext = p then ""
  else
    let b := basename p
    if ext ≠ "" ∧ b ≠ ext ∧ strEndsWith b ext then strDropRight b ext.length else b

/-- Node `path.extname(p)` (POSIX): from the last `'.'` of the basename to
the end; empty for dot-files and for names without a dot. -/
def extname (p : String) : String :=
  let b := basename p
  let cs := b.toList
  if cs.all (fun c => c = '.') then ""
  else
    let afterDot := cs.reverse.takeWhile (fun c => c ≠ '.')
    if afterDot.length = cs.length then ""
    else if afterDot.length + 1 = cs.length ∧ cs.head? = some '.' then ""
    else "." ++ String.mk afterDot.reverse

/-- Node `path.dirname(p)` (POSIX). -/
def dirname (p : String) : String :=
  let cs := dropTrailingSlashes p.toList
  if cs = [] then (if strStartsWith p "/" then "/" else ".")
  else
    let rest := (cs.reverse.dropWhile (fun c => c ≠ '/')).reverse
    if rest = [] then "."
    else
      let rest2 := dropTrailingSlashes rest
      if rest2 = [] then "/" else String.mk rest2

/-- Segment normalisation of Node `path.normalize`: drops empty and `"."`
segments and resolves `".."` (which at the root of an absolute path is
dropped, and at the front of a relative path is kept). -/
def normSegsGo (isAbs : Bool) : List String → List String → List String
  | acc, [] => acc.reverse
  | acc, s :: rest =>
    if s = "" ∨ s = "." then normSegsGo isAbs acc rest
    else if s = ".." then
      match acc with
      | a :: acc' =>
        if a = ".." then normSegsGo isAbs (".." :: a :: acc') rest
        else normSegsGo isAbs acc' rest
      | [] =>
        if isAbs then normSegsGo isAbs [] rest
        else normSegsGo isAbs [".."] rest
    else normSegsGo isAbs (s :: acc) rest

/-- Node `path.normalize(p)` (POSIX; trailing-slash preservation is not
needed by the embedded code paths and is omitted). -/
def pathNormalize (p : String) : String :=
  let isAbs := strStartsWith p "/"
  let segs := normSegsGo isAbs [] (splitOnChar '/' p)
  let core := String.intercalate "/" segs
  if isAbs then (if core = "" then "/" else "/" ++ core)
  else (if core = "" then "." else core)

/-- Node `path.join(...parts)` (POSIX). -/
def pathJoin (parts : List String) : String :=
  let joined := String.intercalate "/" (parts.filter (fun p => p ≠ ""))
  if joined = "" then "." else pathNormalize joined

/-- Node `path.resolve(...ps)` (POSIX) with current working directory
`cwd` (an absolute path). -/
def pathResolve (cwd : String) (ps : List String) : String :=
  let combined := (cwd :: ps).foldl
    (fun acc p => if strStartsWith p "/" then p else acc ++ "/" ++ p) ""
  pathNormalize combined

/-- Absolute segment list of `p` resolved against `cwd`. -/
def absSegs (cwd p : String) : List String :=
  normSegsGo true []
    (splitOnChar '/' (if strStartsWith p "/" then p else cwd ++ "/" ++ p))

/-- Drop the common leading segments of two segment lists. -/
def dropCommonSegs : List String → List String → List String × List String
  | a :: as, b :: bs =>
    if a = b then dropCommonSegs as bs else (a :: as, b :: bs)
  | as, bs => (as, bs)

/-- Node `path.relative(src, dst)` (POSIX), with both arguments resolved
against `cwd` first, exactly as Node does. -/
def pathRelative (cwd src dst : String) : String :=
  let pair := dropCommonSegs (absSegs cwd src) (absSegs cwd dst)
  String.intercalate "/" (pair.1.map (fun _ => "..") ++ pair.2)

/-!
The `minimatch` collaborator

`isIgnored` delegates pattern matching to `minimatch(path, pattern,
{ dot: true })`.  The model below follows minimatch's published algorithm
for the features the repository's patterns use: splitting path and pattern
on runs of `/` (keeping empty boundary pieces), brace alternation
`\x7ba,b\x7d`, the per-segment wildcards `*` and `?`, the cross-segment
`**` (GLOBSTAR) with its "stop at `.`/`..`" rule, leading-`!` negation,
leading-`#` comments, and the two special end-of-segments rules of
`matchOne` (a pattern exhausted with exactly one empty trailing file
segment matches; a file exhausted with pattern remaining does not, since
the repository never passes `partial`). -/

/-- Collapse every run of `'/'` characters to a single `'/'` (the flag
records whether the previous character was a slash). -/
def collapseSlashesGo (prevSlash : Bool) : List Char → List Char
  | [] => []
  | c :: rest =>
    if c = '/' then
      if prevSlash then collapseSlashesGo true rest
      else '/' :: collapseSlashesGo true rest
    else c :: collapseSlashesGo false rest

/-- Split on runs of slashes, as minimatch does with `split(/\/+/)`:
`"images/"` becomes `["images", ""]`, `"a//b"` becomes `["a", "b"]`. -/
def slashSplit (s : String) : List String :=
  splitOnChar '/' (String.mk (collapseSlashesGo false s.toList))

/-- One compiled pattern segment: the GLOBSTAR `**` or a wildcard string. -/
inductive PatSeg where
  | globstar : PatSeg
  | lit : List Char → PatSeg
deriving Repr, DecidableEq

/-- Wildcard match of one segment, on fuel (structural recursion, so the
kernel can evaluate it): `*` matches any character run, `?` one character,
everything else is literal (`dot: true` disables the leading-dot protection,
so no dot rule applies inside a segment). Every recursive call shrinks
`pattern.length + file.length`, so the wrapper's fuel is always enough and
the fuel-exhausted branch is unreachable. -/
def matchSegFuel : Nat → List Char → List Char → Bool
  | 0, _, _ => false
  | _ + 1, [], [] => true
  | _ + 1, [], _ :: _ => false
  | fuel + 1, '*' :: ps, [] => matchSegFuel fuel ps []
  | fuel + 1, '*' :: ps, c :: cs =>
    matchSegFuel fuel ps (c :: cs) || matchSegFuel fuel ('*' :: ps) cs
  | fuel + 1, '?' :: ps, _ :: cs => matchSegFuel fuel ps cs
  | _ + 1, '?' :: _, [] => false
  | fuel + 1, p :: ps, c :: cs => p == c && matchSegFuel fuel ps cs
  | _ + 1, _ :: _, [] => false

/-- Wildcard segment match: pattern first, file segment second. -/
def matchSeg (ps cs : List Char) : Bool :=
  matchSegFuel (ps.length + cs.length + 1) ps cs

/-- minimatch's `matchOne` (tag `true`) and its GLOBSTAR swallow loop
(tag `false`), fused into one fuel-indexed function so the kernel can
evaluate it. With `partial = false` and `dot: true` (the repository's
call): an exhausted pattern accepts exactly an exhausted file or one
trailing empty segment; an exhausted file with pattern left rejects; a
trailing GLOBSTAR swallows everything except `.`/`..` segments; a
non-trailing GLOBSTAR tries every file suffix, stopping at `.`/`..`. Fuel
drops by one per call while `pattern.length + file.length` drops at least
once every two calls, so the wrapper's fuel is always sufficient. -/
def mmRun : Nat → Bool → List String → List PatSeg → Bool
  | 0, _, _, _ => false
  | _ + 1, true, f, [] =>
    match f with
    | [] => true
    | [x] => x == ""
    | _ => false
  | _ + 1, true, [], _ :: _ => false
  | fuel + 1, true, f :: fs, PatSeg.globstar :: ps =>
    match ps with
    | [] => (f :: fs).all (fun x => x ≠ "." && x ≠ "..")
    | q :: qs => mmRun fuel false (f :: fs) (q :: qs)
  | fuel + 1, true, f :: fs, PatSeg.lit s :: ps =>
    matchSeg s f.toList && mmRun fuel true fs ps
  | _ + 1, false, [], _ => false
  | fuel + 1, false, f :: fs, ps =>
    if mmRun fuel true (f :: fs) ps then true
    else if f = "." ∨ f = ".." then false
    else mmRun fuel false fs ps

/-- minimatch's `matchOne` over segment lists. -/
def matchOne (f : List String) (p : List PatSeg) : Bool :=
  mmRun (2 * (p.length + f.length) + 4) true f p

/-- Split a character list on a separator character (JS `split` again). -/
def splitCharList (sep : Char) (cs : List Char) : List (List Char) :=
  (splitOnChar sep (String.mk cs)).map String.toList

/-- Find the first `\x7b` with a later `\x7d`; returns
(text before, group body, text after). No nesting — none of the program's
patterns nest braces. -/
def findBraceClose : List Char → List Char → Option (List Char × List Char)
  | _, [] => none
  | inner, '\x7d' :: rest => some (inner.reverse, rest)
  | inner, c :: rest => findBraceClose (c :: inner) rest

/-- Locate the first brace group of a pattern. -/
def findBraceGroup : List Char → List Char → Option (List Char × List Char × List Char)
  | _, [] => none
  | pre, '\x7b' :: rest =>
    match findBraceClose [] rest with
    | some (inner, post) => some (pre.reverse, inner, post)
    | none => none
  | pre, c :: rest => findBraceGroup (c :: pre) rest

/-- Brace alternation expansion (comma groups only, as in the program's
patterns). Fuel bounds the recursion; each expansion step removes at least
the two brace characters, so `cs.length` fuel is always enough. -/
def braceExpandFuel : Nat → List Char → List (List Char)
  | 0, cs => [cs]
  | fuel + 1, cs =>
    match findBraceGroup [] cs with
    | none => [cs]
    | some (pre, inner, post) =>
      (splitCharList ',' inner).flatMap
        (fun alt => braceExpandFuel fuel (pre ++ alt ++ post))

/-- minimatch's `braceExpand`. -/
def braceExpand (p : String) : List String :=
  (braceExpandFuel p.length p.toList).map String.mk

/-- Compile one pattern segment. -/
def parseSeg (s : String) : PatSeg :=
  if s = "**" then PatSeg.globstar else PatSeg.lit s.toList

/-- Leading `!` count (minimatch `parseNegate`). -/
def countLeadingBangs : List Char → Nat
  | '!' :: rest => countLeadingBangs rest + 1
  | _ => 0

/-- `minimatch(f, p, { dot: true })`: comment patterns never match; after
negation stripping, an empty pattern matches only the empty string; else the
path matches if any brace expansion matches segment-wise. -/
def minimatchBool (f p : String) : Bool :=
  if strStartsWith p "#" then false
  else
    let bangs := countLeadingBangs p.toList
    let negate := bangs % 2 = 1
    let core := String.mk (p.toList.drop bangs)
    if core = "" then f = ""
    else
      let hit := (braceExpand core).any
        (fun pat => matchOne (slashSplit f) ((slashSplit pat).map parseSeg))
      if negate then !hit else hit

/-!
Ignore resolver (`isIgnored` of `src/minifier.js`) and the CLI's
pattern loading (`loadIgnoreFile` and the `--ignore` option reducer). -/

/-- The tool-supplied default ignore patterns, verbatim from `isIgnored`. -/
def DEFAULT_IGNORE_PATTERNS : List String :=
  [ "**/*.config.\x7bjs,cjs,mjs\x7d"
  , "**/\x7b.,\x7d*rc.\x7bjs,cjs,json\x7d"
  , "**/webpack.*.js"
  , "**/gulpfile.\x7bjs,mjs\x7d"
  , "**/Gruntfile.js"
  , "**/rollup.config.js"
  , "**/jest.config.js"
  , "**/jest.setup.js"
  , "**/playwright.config.js"
  , "**/cypress.config.js"
  , "**/babel.config.js"
  , "**/eslint.config.js" ]

/-- `[...new Set(list)]`: removes duplicates keeping the first occurrence
of each string, preserving insertion order. -/
def dedupeKeepFirst (seen : List String) : List String → List String
  | [] => []
  | x :: xs =>
    if x ∈ seen then dedupeKeepFirst seen xs
    else x :: dedupeKeepFirst (x :: seen) xs

/-- The merged pattern list built inside `isIgnored`:
`[...new Set([...DEFAULT_IGNORE_PATTERNS, ...(ignorePatterns || [])])]`. -/
def mergedPatterns (ignorePatterns : List String) : List String :=
  dedupeKeepFirst [] (DEFAULT_IGNORE_PATTERNS ++ ignorePatterns)

/-- `isIgnored(filePath, ignorePatterns, baseDir)` of `src/minifier.js`;
`cwd` is the process working directory `path.relative` resolves against. -/
def isIgnored (filePath : String) (ignorePatterns : List String)
    (baseDir : String) (cwd : String) : Bool :=
  let allPatterns := mergedPatterns ignorePatterns
  let relativePath := pathRelative cwd baseDir filePath
  if relativePath = "" ∨ relativePath = "." then false
  else
    let normalizedPath := replaceBackslashes relativePath
    allPatterns.any (fun pattern =>
      let normalizedPattern := replaceBackslashes pattern
      minimatchBool normalizedPath normalizedPattern ||
        minimatchBool (normalizedPath ++ "/") (normalizedPattern ++ "/"))

/-- The whitespace class trimmed by JavaScript `String.prototype.trim` and
matched by `\s` (ASCII part plus NBSP, LS, PS, BOM — the program never
feeds the other exotic Unicode spaces to it). -/
def jsWhitespace (c : Char) : Bool :=
  c = ' ' || c = '\t' || c = '\n' || c = '\r' || c = '\x0b' || c = '\x0c'
    || c = ' ' || c = ' ' || c = ' ' || c = '﻿'

/-- JavaScript `s.trim()`. -/
def trimJs (s : String) : String :=
  String.mk ((s.toList.dropWhile jsWhitespace).reverse.dropWhile jsWhitespace).reverse

/-- The pure content-parsing of the CLI's `loadIgnoreFile`:
`content.split(/\r?\n/).map(l => l.trim()).filter(l => l && !l.startsWith('#'))`.
(The surrounding file read is the caller's concern: a missing or unreadable
file contributes the empty pattern list.) -/
def loadIgnoreFile (content : String) : List String :=
  (((splitOnChar '\n' content).map
      (fun l => if strEndsWith l "\r" then strDropRight l 1 else l)).map trimJs).filter
    (fun l => l ≠ "" && !(strStartsWith l "#"))

/-- The repeatable, comma-splittable `--ignore` option:
`(value, previous) => previous.concat(value.split(','))` folded over all
occurrences starting from `[]`. -/
def cliIgnorePatterns (vals : List String) : List String :=
  vals.flatMap (splitOnChar ',')

/-!
Stripping embedded source-map reference comments

`processFile` computes
`originalContent.replace(/\/\/[#@]\s*sourceMappingURL=.*$/gm, '')
               .replace(/\/\*#\s*sourceMappingURL=.*?\*\//g, '').trim()`. -/

/-- Line terminators for the `m` flag and the `.` class of JS regexes. -/
def isLineTerm (c : Char) : Bool :=
  c = '\n' || c = '\r' || c = ' ' || c = ' '

/-- The characters of `sourceMappingURL=`. -/
def smuChars : List Char := "sourceMappingURL=".toList

/-- If `cs` begins a `//[#@]\s*sourceMappingURL=.*$` match, return the
remainder after deleting the match (the line terminator survives, since
`.` does not match it and `$` is zero-width). -/
def lineRefMatch (cs : List Char) : Option (List Char) :=
  match cs with
  | '/' :: '/' :: m :: rest =>
    if m = '#' ∨ m = '@' then
      match dropLit smuChars (rest.dropWhile jsWhitespace) with
      | some r => some (r.dropWhile (fun c => !isLineTerm c))
      | none => none
    else none
  | _ => none

/-- Scan for the closing `*/` of the block form; the lazy `.*?` cannot
cross a line terminator, so the scan gives up at one. -/
def findBlockClose : List Char → Option (List Char)
  | '*' :: '/' :: rest => some rest
  | c :: rest => if isLineTerm c then none else findBlockClose rest
  | [] => none

/-- If `cs` begins a `/\*#\s*sourceMappingURL=.*?\*\//` match, return the
remainder after the closing `*/`. -/
def blockRefMatch (cs : List Char) : Option (List Char) :=
  match cs with
  | '/' :: '*' :: '#' :: rest =>
    match dropLit smuChars (rest.dropWhile jsWhitespace) with
    | some r => findBlockClose r
    | none => none
  | _ => none

/-- Global-replace-with-empty scan: at each position either delete a match
(both matchers consume at least three characters, so `cs.length` fuel always
suffices and the fuel-exhausted branch is unreachable) or keep the character
and move on — exactly how a global regex replace with an empty replacement
proceeds. -/
def stripScan (matcher : List Char → Option (List Char)) : Nat → List Char → List Char
  | 0, cs => cs
  | _ + 1, [] => []
  | fuel + 1, c :: rest =>
    match matcher (c :: rest) with
    | some r => stripScan matcher fuel r
    | none => c :: stripScan matcher fuel rest

/-- The `cleanedContent` computation of `processFile`: line-comment form
replaced first, then the block-comment form, then `trim()`. -/
def stripSourceMapRefs (s : String) : String :=
  let afterLine := stripScan lineRefMatch s.toList.length s.toList
  let afterBlock := stripScan blockRefMatch afterLine.length afterLine
  trimJs (String.mk afterBlock)

/-!
File processor (`processFile`) and directory walker
(`traverseAndMinifyDirectory`) of `src/minifier.js`.

Filesystem reads are passed in (`Except String String`: the content, or the
read error's message); writes, recursive directory creations and the calls
into the external minifiers are reified in the returned effect trace. -/

/-- The options bag assembled by the CLI and threaded through the
traversal (`minifierOptions`). `ignorePatterns = none` models the field
being absent/undefined (the `options.ignorePatterns && ...` guard). -/
structure MOptions where
  dropConsole : Bool := false
  mangle : Bool := true
  collapseWhitespace : Bool := true
  removeComments : Bool := true
  removeRedundantAttributes : Bool := true
  useShortDoctype : Bool := true
  minifyCss : Bool := true
  minifyJs : Bool := true
  sourceMap : Bool := false
  sourceMapDir : Option String := none
  outputDir : Option String := none
  dryRun : Bool := false
  verbose : Bool := true
  ignorePatterns : Option (List String) := none
  basePath : String := "/"
deriving Repr, DecidableEq

/-- The external minification collaborators (terser, cssnano via postcss,
html-minifier-terser), plus the JSON round-trip that augments a terser map
with `sourcesContent`. `js` receives the cleaned content and
(dropConsole, mangle, sourceMap-requested); `css` the cleaned content and
sourceMap-requested; `html` the six boolean sub-options. Errors thrown or
reported by the libraries are the `Except.error` case. -/
structure Minifiers where
  js : String → Bool → Bool → Bool → Except String (String × Option String)
  jsMapFix : String → String → String
  css : String → Bool → Except String (String × Option String)
  html : String → Bool → Bool → Bool → Bool → Bool → Bool → Except String String

/-- One observable effect of `processFile`, in program order. -/
inductive FsEff where
  | readF : String → FsEff
  | mkdirRec : String → FsEff
  | writeF : String → String → FsEff
  | minifyCall : String → String → FsEff
deriving Repr, DecidableEq

/-- Effect classifiers. -/
def FsEff.isWrite : FsEff → Bool
  | .writeF _ _ => true
  | _ => false

def FsEff.isRead : FsEff → Bool
  | .readF _ => true
  | _ => false

def FsEff.isMkdir : FsEff → Bool
  | .mkdirRec _ => true
  | _ => false

/-- The per-file result record of `processFile`. Sizes are
`Buffer.byteLength(·, 'utf8')`, i.e. UTF-8 byte counts. -/
structure FileResult where
  filePath : String
  originalSize : Nat
  minifiedSize : Nat
  reduction : Int
  reductionPercent : Rat
  status : String
  outputFilePath : Option String
  sourceMapGenerated : Bool
  error : Option String
deriving Repr, DecidableEq

/-- The guard `options.ignorePatterns && isIgnored(...)` (an absent field
skips the check entirely; any array — even empty — runs it). -/
def ignoreGate (opts : MOptions) (cwd filePath : String) : Bool :=
  match opts.ignorePatterns with
  | none => false
  | some pats => isIgnored filePath pats opts.basePath cwd

/-- `lastPart.substring(lastPart.indexOf('.'))`: JavaScript's
`substring(-1)` clamps to 0, so a dot-free string comes back whole. -/
def extFromFirstDot (s : String) : String :=
  let after := s.toList.dropWhile (fun c => c ≠ '.')
  if after = [] then s else String.mk after

/-- The output-path planning block of `processFile` (the `options.outputDir`
branch): when the outputDir's basename has an extension and contains `*`,
the last `/`-separated part supplies the new extension (if it starts with
`*`; otherwise a warning is printed and the original filename is kept) and
the remaining parts — taken literally, `**` included — are joined under
`cwd` with the input's path relative to `basePath`; otherwise the resolved
outputDir is joined with that relative path. -/
def computeOutputPath (cwd filePath fileName ext basePath od : String) : String :=
  let inputRelativePath := pathRelative cwd basePath filePath
  let outputDirExt := extname od
  let outputDirBase := basename od
  if outputDirExt ≠ "" ∧ outputDirBase.toList.contains '*' then
    let parts := splitOnChar '/' od
    let lastPart := parts.getLastD ""
    let targetFileName :=
      if strStartsWith lastPart "*" then basenameExt fileName ext ++ extFromFirstDot lastPart
      else fileName
    let baseOutputDir := pathJoin (cwd :: parts.dropLast)
    let withRel := pathJoin [baseOutputDir, inputRelativePath]
    pathJoin [dirname withRel, targetFileName]
  else
    pathJoin [pathResolve cwd [od], inputRelativePath]

/-- The extension dispatch of `processFile`'s `try` block. Returns
(`minified` flag, minified content, source-map content if one will be kept)
or the caught error, paired with the minify-call effect. JS and CSS receive
the cleaned content; HTML receives the original content. A map is kept only
when `options.sourceMap` is set and the library produced one (for JS after
the `sourcesContent` JSON fix-up). Unsupported extensions leave the content
as is with `minified = false`. -/
def dispatchMinify (m : Minifiers) (opts : MOptions) (ext orig cleaned : String) :
    Except String (Bool × String × Option String) × List FsEff :=
  if ext = ".js" then
    ( match m.js cleaned opts.dropConsole opts.mangle opts.sourceMap with
      | .error e => .error e
      | .ok (code, mp) =>
        .ok (true, code, if opts.sourceMap then mp.map (m.jsMapFix cleaned) else none)
    , [FsEff.minifyCall ".js" cleaned] )
  else if ext = ".css" then
    ( match m.css cleaned opts.sourceMap with
      | .error e => .error e
      | .ok (code, mp) => .ok (true, code, if opts.sourceMap then mp else none)
    , [FsEff.minifyCall ".css" cleaned] )
  else if ext = ".html" then
    ( match m.html orig opts.collapseWhitespace opts.removeComments
        opts.removeRedundantAttributes opts.useShortDoctype opts.minifyCss opts.minifyJs with
      | .error e => .error e
      | .ok code => .ok (true, code, none)
    , [FsEff.minifyCall ".html" orig] )
  else (.ok (false, orig, none), [])

/-- `processFile(filePath, options)` of `src/minifier.js`, with the read
outcome passed in and writes reified. Faithful points: the `mkdir` of the
output directory happens whenever `outputDir` is set, before the dry-run
test; `result.outputFilePath` is set for every path that gets past the
read; the no-change comparison is against the original (uncleaned) content;
sizes/reduction are only filled in on the changed branch; the map is
written (after its own `mkdir`) only in the non-dry branch when
`options.sourceMap` is set and map content exists. Write failures are not
modelled (writes always succeed). -/
def processFile (cwd filePath : String) (opts : MOptions)
    (readRes : Except String String) (m : Minifiers) : FileResult × List FsEff :=
  let ext := strToLower (extname filePath)
  let fileName := basename filePath
  let dirName := dirname filePath
  let relativeFilePath := pathRelative cwd cwd filePath
  let r0 : FileResult :=
    { filePath := relativeFilePath, originalSize := 0, minifiedSize := 0,
      reduction := 0, reductionPercent := 0, status := "Skipped",
      outputFilePath := none, sourceMapGenerated := false, error := none }
  if ignoreGate opts cwd filePath then ({ r0 with status := "Ignored" }, [])
  else
    match readRes with
    | .error msg =>
      ({ r0 with status := "Error", error := some ("Failed to read: " ++ msg) },
       [FsEff.readF filePath])
    | .ok originalContent =>
      let origSize := originalContent.utf8ByteSize
      let outputFilePath :=
        match opts.outputDir with
        | none => filePath
        | some od => computeOutputPath cwd filePath fileName ext opts.basePath od
      let mkEffs : List FsEff :=
        match opts.outputDir with
        | none => []
        | some _ => [FsEff.mkdirRec (dirname outputFilePath)]
      let sourceMapTargetDir :=
        match opts.sourceMapDir with
        | some smd => pathResolve cwd [dirName, smd]
        | none =>
          match opts.outputDir with
          | some _ => dirname outputFilePath
          | none => dirName
      let sourceMapActualFilePath :=
        pathJoin [sourceMapTargetDir, basename outputFilePath ++ ".map"]
      let cleanedContent := stripSourceMapRefs originalContent
      let dm := dispatchMinify m opts ext originalContent cleanedContent
      let baseEffs := FsEff.readF filePath :: (mkEffs ++ dm.2)
      let r1 := { r0 with originalSize := origSize,
                          outputFilePath := some (pathRelative cwd cwd outputFilePath) }
      match dm.1 with
      | .error msg => ({ r1 with status := "Error", error := some msg }, baseEffs)
      | .ok (minified, minCont, smc) =>
        if minified && !(originalContent == minCont) then
          let minSize := minCont.utf8ByteSize
          let r2 := { r1 with
            minifiedSize := minSize,
            reduction := (origSize : Int) - (minSize : Int),
            reductionPercent :=
              if 0 < origSize then
                (((origSize : Int) - (minSize : Int) : Int) : Rat) / (origSize : Rat) * 100
              else 0 }
          if opts.dryRun then ({ r2 with status := "[DRY RUN] Minified" }, baseEffs)
          else if opts.sourceMap && smc.isSome then
            ({ r2 with status := "Minified", sourceMapGenerated := true },
             baseEffs ++ [FsEff.writeF outputFilePath minCont,
                          FsEff.mkdirRec sourceMapTargetDir,
                          FsEff.writeF sourceMapActualFilePath (smc.getD "")])
          else
            ({ r2 with status := "Minified" },
             baseEffs ++ [FsEff.writeF outputFilePath minCont])
        else ({ r1 with status := "No Change" }, baseEffs)

mutual

/-- A filesystem subtree: files carry their read outcome. -/
inductive FsNode where
  | file : String → Except String String → FsNode
  | dir : String → FsEntries → FsNode

/-- Directory entries in `readdir` enumeration order. -/
inductive FsEntries where
  | nil : FsEntries
  | cons : FsNode → FsEntries → FsEntries

end

/-- The extension filter of the walker: `['.js', '.css', '.html']`. -/
def supportedExts : List String := [".js", ".css", ".html"]

mutual

/-- One iteration of `traverseAndMinifyDirectory`'s entry loop: a
subdirectory is recursed into (with the ignore check the recursive call
performs on entry); a file whose lower-cased extension is supported is
processed and its result appended; any other file contributes nothing. -/
def traverseNode (cwd : String) (opts : MOptions) (m : Minifiers) :
    String → FsNode → List FileResult
  | parent, FsNode.file name content =>
    let filePath := pathJoin [parent, name]
    let ext := strToLower (extname filePath)
    if supportedExts.contains ext then [(processFile cwd filePath opts content m).1]
    else []
  | parent, FsNode.dir name entries =>
    let dirPath := pathJoin [parent, name]
    if ignoreGate opts cwd dirPath then []
    else traverseEntries cwd opts m dirPath entries

/-- The entry loop of `traverseAndMinifyDirectory`, accumulating results
in enumeration order. -/
def traverseEntries (cwd : String) (opts : MOptions) (m : Minifiers) :
    String → FsEntries → List FileResult
  | _, FsEntries.nil => []
  | directory, FsEntries.cons t ts =>
    traverseNode cwd opts m directory t ++ traverseEntries cwd opts m directory ts

end

/-- `traverseAndMinifyDirectory(directory, options, results)`: the ignore
check on the directory itself, then the entry loop; `results` is the
returned accumulation. -/
def traverseAndMinifyDirectory (cwd : String) (opts : MOptions) (m : Minifiers)
    (directory : String) (entries : FsEntries) : List FileResult :=
  if ignoreGate opts cwd directory then []
  else traverseEntries cwd opts m directory entries

mutual

/-- The files the walker hands to `processFile` below one entry:
supported-extension files lying under no ignored directory, in enumeration
order, with their read outcomes. (Defined for the traversal correspondence
theorems.) -/
def eligibleNode (cwd : String) (opts : MOptions) :
    String → FsNode → List (String × Except String String)
  | parent, FsNode.file name content =>
    let filePath := pathJoin [parent, name]
    if supportedExts.contains (strToLower (extname filePath)) then [(filePath, content)]
    else []
  | parent, FsNode.dir name entries =>
    let dirPath := pathJoin [parent, name]
    if ignoreGate opts cwd dirPath then []
    else eligibleEntries cwd opts dirPath entries

/-- `eligibleNode` accumulated over an entry list. -/
def eligibleEntries (cwd : String) (opts : MOptions) :
    String → FsEntries → List (String × Except String String)
  | _, FsEntries.nil => []
  | directory, FsEntries.cons t ts =>
    eligibleNode cwd opts directory t ++ eligibleEntries cwd opts directory ts

end

/-- A minifier bundle that returns its input unchanged (a fixed point). -/
def idMinifiers : Minifiers :=
  { js := fun c _ _ _ => .ok (c, none)
  , jsMapFix := fun _ mp => mp
  , css := fun c _ => .ok (c, none)
  , html := fun c _ _ _ _ _ _ => .ok c }

/-- A minifier bundle that always returns the given output. -/
def constMinifiers (out : String) : Minifiers :=
  { js := fun _ _ _ _ => .ok (out, none)
  , jsMapFix := fun _ mp => mp
  , css := fun _ _ => .ok (out, none)
  , html := fun _ _ _ _ _ _ _ => .ok out }

/-- A minifier bundle that always fails with the given message. -/
def errMinifiers (msg : String) : Minifiers :=
  { js := fun _ _ _ _ => .error msg
  , jsMapFix := fun _ mp => mp
  , css := fun _ _ => .error msg
  , html := fun _ _ _ _ _ _ _ => .error msg }

/-!
Theorems

Helper lemmas first, then one theorem per claim (with witnesses and
counterexamples where the claim's status calls for them). -/

/-- Deduplication keeps a subsequence of the input. -/
theorem dedupeKeepFirst_sublist (seen l : List String) :
    (dedupeKeepFirst seen l).Sublist l := by
  induction l generalizing seen with
  | nil => simp [dedupeKeepFirst]
  | cons a l ih =>
    simp only [dedupeKeepFirst]
    split
    · exact (ih seen).cons a
    · exact (ih (a :: seen)).cons₂ a

/-- Membership in the deduplicated list. -/
theorem mem_dedupeKeepFirst (seen l : List String) (x : String) :
    x ∈ dedupeKeepFirst seen l ↔ x ∈ l ∧ x ∉ seen := by
  induction l generalizing seen with
  | nil => simp [dedupeKeepFirst]
  | cons a l ih =>
    simp only [dedupeKeepFirst]
    split
    next h =>
      rw [ih]
      constructor
      · rintro ⟨hm, hn⟩; exact ⟨List.mem_cons_of_mem a hm, hn⟩
      · rintro ⟨hm, hn⟩
        rcases List.mem_cons.mp hm with rfl | hm'
        · exact absurd h hn
        · exact ⟨hm', hn⟩
    next h =>
      rw [List.mem_cons, ih]
      simp only [List.mem_cons, not_or]
      constructor
      · rintro (rfl | ⟨hm, _, hn⟩)
        · exact ⟨Or.inl rfl, h⟩
        · exact ⟨Or.inr hm, hn⟩
      · rintro ⟨rfl | hm, hn⟩
        · exact Or.inl rfl
        · by_cases hxa : x = a
          · exact Or.inl hxa
          · exact Or.inr ⟨hm, hxa, hn⟩

/-- The deduplicated list has no duplicates. -/
theorem dedupeKeepFirst_nodup (seen l : List String) :
    (dedupeKeepFirst seen l).Nodup := by
  induction l generalizing seen with
  | nil => simp [dedupeKeepFirst]
  | cons a l ih =>
    simp only [dedupeKeepFirst]
    split
    · exact ih seen
    · refine List.nodup_cons.mpr ⟨fun hmem => ?_, ih (a :: seen)⟩
      exact ((mem_dedupeKeepFirst _ _ _).mp hmem).2 (List.mem_cons_self a seen)

/-- Only the membership of `seen` matters, not its arrangement. -/
theorem dedupeKeepFirst_congr (s₁ s₂ l : List String)
    (h : ∀ a, a ∈ s₁ ↔ a ∈ s₂) :
    dedupeKeepFirst s₁ l = dedupeKeepFirst s₂ l := by
  induction l generalizing s₁ s₂ with
  | nil => rfl
  | cons a l ih =>
    simp only [dedupeKeepFirst]
    by_cases ha : a ∈ s₁
    · simp only [ha, (h a).mp ha, if_pos]
      exact ih s₁ s₂ h
    · have ha₂ : a ∉ s₂ := fun hx => ha ((h a).mpr hx)
      simp only [ha, ha₂, if_neg, not_false_eq_true]
      exact congrArg (a :: ·)
        (ih (a :: s₁) (a :: s₂) (fun b => by simp [List.mem_cons, h b]))

/-- A duplicate-free block of fresh strings passes through deduplication
unchanged, at the front. -/
theorem dedupeKeepFirst_append (seen l u : List String)
    (hl : l.Nodup) (hs : ∀ x ∈ l, x ∉ seen) :
    dedupeKeepFirst seen (l ++ u) = l ++ dedupeKeepFirst (l ++ seen) u := by
  induction l generalizing seen with
  | nil => simp
  | cons a l ih =>
    have ha : a ∉ seen := hs a (List.mem_cons_self a l)
    have hstep := ih (a :: seen) (List.Nodup.of_cons hl)
      (fun x hx => by
        simp only [List.mem_cons, not_or]
        exact ⟨fun hxa => (List.nodup_cons.mp hl).1 (hxa ▸ hx), hs x (List.mem_cons_of_mem a hx)⟩)
    simp only [List.cons_append, dedupeKeepFirst, List.append_eq]
    rw [if_neg ha, hstep]
    refine congrArg (a :: ·) (congrArg (l ++ ·) ?_)
    exact dedupeKeepFirst_congr _ _ u (fun b => by
      simp only [List.mem_append, List.mem_cons]; tauto)

/-- The default pattern block is duplicate-free. -/
theorem default_patterns_nodup : DEFAULT_IGNORE_PATTERNS.Nodup := by decide

/--
C4. The merged pattern list used by `isIgnored` is exactly the
deduplication (first occurrence kept) of: defaults, then ignore-file
patterns, then CLI patterns — so it always begins with the full default
block in order, is a subsequence of the raw concatenation (order
preserved), loses no pattern, and contains no duplicate.
-/
theorem merged_patterns_spec (fileContent : String) (cliVals : List String) :
    mergedPatterns (loadIgnoreFile fileContent ++ cliIgnorePatterns cliVals) =
      dedupeKeepFirst []
        (DEFAULT_IGNORE_PATTERNS ++ (loadIgnoreFile fileContent ++ cliIgnorePatterns cliVals))
    ∧ DEFAULT_IGNORE_PATTERNS <+:
        mergedPatterns (loadIgnoreFile fileContent ++ cliIgnorePatterns cliVals)
    ∧ (mergedPatterns (loadIgnoreFile fileContent ++ cliIgnorePatterns cliVals)).Sublist
        (DEFAULT_IGNORE_PATTERNS ++ (loadIgnoreFile fileContent ++ cliIgnorePatterns cliVals))
    ∧ (∀ x, x ∈ mergedPatterns (loadIgnoreFile fileContent ++ cliIgnorePatterns cliVals) ↔
        x ∈ DEFAULT_IGNORE_PATTERNS ++ (loadIgnoreFile fileContent ++ cliIgnorePatterns cliVals))
    ∧ (mergedPatterns (loadIgnoreFile fileContent ++ cliIgnorePatterns cliVals)).Nodup := by
  refine ⟨rfl, ?_, ?_, ?_, ?_⟩
  · rw [mergedPatterns,
      dedupeKeepFirst_append [] DEFAULT_IGNORE_PATTERNS _ default_patterns_nodup (by simp)]
    exact ⟨_, rfl⟩
  · exact dedupeKeepFirst_sublist _ _
  · intro x
    simp [mergedPatterns, mem_dedupeKeepFirst]
  · exact dedupeKeepFirst_nodup _ _

mutual

/-- The traversal of one entry yields exactly the `processFile` results of
its eligible files, in order — independent of what the minifiers do. -/
theorem traverseNode_eq_eligible (cwd : String) (opts : MOptions) (m : Minifiers)
    (parent : String) :
    (t : FsNode) →
      traverseNode cwd opts m parent t =
        (eligibleNode cwd opts parent t).map (fun pc => (processFile cwd pc.1 opts pc.2 m).1)
  | FsNode.file name content => by
    simp only [traverseNode, eligibleNode]
    split
    next h => simp [h]
    next h => simp [h]
  | FsNode.dir name entries => by
    simp only [traverseNode, eligibleNode]
    split
    next h => simp [h]
    next _ =>
      exact traverseEntries_eq_eligible cwd opts m (pathJoin [parent, name]) entries

/-- Entry-list version of `traverseNode_eq_eligible`. -/
theorem traverseEntries_eq_eligible (cwd : String) (opts : MOptions) (m : Minifiers)
    (directory : String) :
    (ts : FsEntries) →
      traverseEntries cwd opts m directory ts =
        (eligibleEntries cwd opts directory ts).map
          (fun pc => (processFile cwd pc.1 opts pc.2 m).1)
  | FsEntries.nil => by simp [traverseEntries, eligibleEntries]
  | FsEntries.cons t ts => by
    simp only [traverseEntries, eligibleEntries, List.map_append]
    rw [traverseNode_eq_eligible cwd opts m directory t,
      traverseEntries_eq_eligible cwd opts m directory ts]

end

/-- The minify dispatch emits only the minify-call effect — never a
filesystem effect. -/
theorem dispatchMinify_snd_filter (m : Minifiers) (opts : MOptions) (ext o c : String) :
    (dispatchMinify m opts ext o c).2.filter FsEff.isWrite = []
    ∧ (dispatchMinify m opts ext o c).2.filter FsEff.isRead = []
    ∧ (dispatchMinify m opts ext o c).2.filter FsEff.isMkdir = [] := by
  unfold dispatchMinify
  split
  · simp [FsEff.isWrite, FsEff.isRead, FsEff.isMkdir]
  · split
    · simp [FsEff.isWrite, FsEff.isRead, FsEff.isMkdir]
    · split
      · simp [FsEff.isWrite, FsEff.isRead, FsEff.isMkdir]
      · simp

/--
C2 (amended). Under `dryRun = true`, `processFile` performs no file write
and at most one read; but directory creation is *not* suppressed — it is
absent only when no `outputDir` is configured (the `mkdir` of the output
parent runs before the dry-run test).
-/
theorem processFile_dryRun_no_writes (cwd fp : String) (opts : MOptions)
    (rr : Except String String) (m : Minifiers) (h : opts.dryRun = true) :
    (processFile cwd fp opts rr m).2.filter FsEff.isWrite = []
    ∧ ((processFile cwd fp opts rr m).2.filter FsEff.isRead).length ≤ 1
    ∧ (opts.outputDir = none →
        (processFile cwd fp opts rr m).2.filter FsEff.isMkdir = []) := by
  unfold processFile
  split
  · simp
  · cases rr with
    | error msg => simp [FsEff.isWrite, FsEff.isRead, FsEff.isMkdir]
    | ok c =>
      obtain ⟨hw, hr, hm⟩ := dispatchMinify_snd_filter m opts
        (strToLower (extname fp)) c (stripSourceMapRefs c)
      dsimp only
      cases hod : opts.outputDir <;>
        simp only [hod] <;>
        split <;> (try split) <;> (try split) <;>
        simp_all [List.filter, FsEff.isWrite, FsEff.isRead, FsEff.isMkdir]

/--
C1 (amended). For every invocation of `processFile` with
`outputDir = "dist/**/*.min.js"`, `basePath = "/work/src"` and input file
`/work/src/app.js` (any content, any minifier behaviour, any dry-run or
source-map setting), the computed output path is `dist/**/app.min.js`:
the base name with the new extension is placed under the outputDir's parent
segments taken literally — the `**` segment included — joined with the
input's relative subdirectory.
-/
theorem processFile_rename_pattern_output (content : String) (m : Minifiers) (dr sm : Bool) :
    (processFile "/work" "/work/src/app.js"
      { outputDir := some "dist/**/*.min.js", basePath := "/work/src",
        ignorePatterns := some [], dryRun := dr, sourceMap := sm }
      (Except.ok content) m).1.outputFilePath = some "dist/**/app.min.js" := by
  have hig : ignoreGate
      { outputDir := some "dist/**/*.min.js", basePath := "/work/src",
        ignorePatterns := some [], dryRun := dr, sourceMap := sm }
      "/work" "/work/src/app.js" = false := by
    with_unfolding_all rfl
  unfold processFile
  rw [hig]
  simp only [Bool.false_eq_true, ite_false]
  try dsimp only
  split
  · rfl
  · split
    · split
      · rfl
      · split
        · rfl
        · rfl
    · rfl

/--
C5. When the selected minifier reports an error, `processFile` returns
status `"Error"` carrying the minifier's message, performs no content and
no map write, and the traversal still yields one result per eligible file
of the tree — whatever the minifiers do on other files.
-/
theorem processFile_minify_error (cwd fp : String) (opts : MOptions) (c msg : String)
    (m : Minifiers)
    (h1 : ignoreGate opts cwd fp = false)
    (h2 : (dispatchMinify m opts (strToLower (extname fp)) c (stripSourceMapRefs c)).1 =
      Except.error msg) :
    (processFile cwd fp opts (Except.ok c) m).1.status = "Error"
    ∧ (processFile cwd fp opts (Except.ok c) m).1.error = some msg
    ∧ (processFile cwd fp opts (Except.ok c) m).2.filter FsEff.isWrite = []
    ∧ ∀ (directory : String) (entries : FsEntries) (m' : Minifiers),
        (traverseAndMinifyDirectory cwd opts m' directory entries).length =
          (if ignoreGate opts cwd directory then []
           else eligibleEntries cwd opts directory entries).length := by
  obtain ⟨hw, _, _⟩ := dispatchMinify_snd_filter m opts
    (strToLower (extname fp)) c (stripSourceMapRefs c)
  refine ⟨?_, ?_, ?_, ?_⟩
  · unfold processFile
    rw [h1]
    simp only [Bool.false_eq_true, ite_false]
    try dsimp only
    rw [h2]
  · unfold processFile
    rw [h1]
    simp only [Bool.false_eq_true, ite_false]
    try dsimp only
    rw [h2]
  · unfold processFile
    rw [h1]
    simp only [Bool.false_eq_true, ite_false]
    try dsimp only
    rw [h2]
    cases hod : opts.outputDir <;>
      simp [List.filter, FsEff.isWrite, hw]
  · intro directory entries m'
    unfold traverseAndMinifyDirectory
    split
    · simp
    · rw [traverseEntries_eq_eligible]
      simp

/-- The ignore gate never looks at `dryRun`. -/
theorem ignoreGate_dryRun (opts : MOptions) (cwd fp : String) (b : Bool) :
    ignoreGate { opts with dryRun := b } cwd fp = ignoreGate opts cwd fp := rfl

/-- The minify dispatch never looks at `dryRun`. -/
theorem dispatchMinify_dryRun (m : Minifiers) (opts : MOptions) (ext o c : String) (b : Bool) :
    dispatchMinify m { opts with dryRun := b } ext o c = dispatchMinify m opts ext o c := rfl

/-- Shape of a `processFile` run whose minifier hands the original content
back unchanged: the "No Change" result and the read/mkdir/minify-call
trace. -/
theorem processFile_ok_no_change_shape (cwd fp : String) (opts : MOptions) (c : String)
    (smc : Option String) (m : Minifiers)
    (h1 : ignoreGate opts cwd fp = false)
    (h2 : (dispatchMinify m opts (strToLower (extname fp)) c (stripSourceMapRefs c)).1 =
      Except.ok (true, c, smc)) :
    processFile cwd fp opts (Except.ok c) m =
      ({ filePath := pathRelative cwd cwd fp, originalSize := c.utf8ByteSize,
         minifiedSize := 0, reduction := 0, reductionPercent := 0,
         status := "No Change",
         outputFilePath := some (pathRelative cwd cwd
           (match opts.outputDir with
            | none => fp
            | some od => computeOutputPath cwd fp (basename fp)
                (strToLower (extname fp)) opts.basePath od)),
         sourceMapGenerated := false, error := none },
       FsEff.readF fp ::
         ((match opts.outputDir with
           | none => []
           | some _ => [FsEff.mkdirRec (dirname
               (match opts.outputDir with
                | none => fp
                | some od => computeOutputPath cwd fp (basename fp)
                    (strToLower (extname fp)) opts.basePath od))]) ++
          (dispatchMinify m opts (strToLower (extname fp)) c (stripSourceMapRefs c)).2)) := by
  unfold processFile
  rw [h1]
  simp only [Bool.false_eq_true, ite_false]
  try dsimp only
  rw [h2]
  simp

/--
C6. When the selected minifier returns content byte-identical to the
original, `processFile` reports status `"No Change"`, performs no write,
and the whole outcome — result and effect trace — is the same with
`dryRun = true` and `dryRun = false`.
-/
theorem processFile_no_change (cwd fp : String) (opts : MOptions) (c : String)
    (smc : Option String) (m : Minifiers)
    (h1 : ignoreGate opts cwd fp = false)
    (h2 : (dispatchMinify m opts (strToLower (extname fp)) c (stripSourceMapRefs c)).1 =
      Except.ok (true, c, smc)) :
    processFile cwd fp { opts with dryRun := true } (Except.ok c) m =
      processFile cwd fp { opts with dryRun := false } (Except.ok c) m
    ∧ (processFile cwd fp opts (Except.ok c) m).1.status = "No Change"
    ∧ (processFile cwd fp opts (Except.ok c) m).2.filter FsEff.isWrite = [] := by
  obtain ⟨hw, _, _⟩ := dispatchMinify_snd_filter m opts
    (strToLower (extname fp)) c (stripSourceMapRefs c)
  refine ⟨?_, ?_, ?_⟩
  · rw [processFile_ok_no_change_shape cwd fp { opts with dryRun := true } c smc m
        (by rw [ignoreGate_dryRun]; exact h1)
        (by rw [dispatchMinify_dryRun]; exact h2),
      processFile_ok_no_change_shape cwd fp { opts with dryRun := false } c smc m
        (by rw [ignoreGate_dryRun]; exact h1)
        (by rw [dispatchMinify_dryRun]; exact h2)]
    rfl
  · rw [processFile_ok_no_change_shape cwd fp opts c smc m h1 h2]
  · rw [processFile_ok_no_change_shape cwd fp opts c smc m h1 h2]
    cases hod : opts.outputDir <;>
      simp [List.filter, FsEff.isWrite, hw]

/--
C7 (amended). The traversal produces exactly one FileResult — the
`processFile` result — for every file whose lower-cased extension is in
`{.js, .css, .html}` and that lies under no ignored directory (an ignored
file still yields its single `"Ignored"` result), in enumeration order,
and none for any other file; a file inside an ignored directory yields no
FileResult even when the file itself is not ignored.
-/
theorem traverse_exactly_eligible (cwd : String) (opts : MOptions) (m : Minifiers)
    (directory : String) (entries : FsEntries) :
    traverseAndMinifyDirectory cwd opts m directory entries =
      (if ignoreGate opts cwd directory then []
       else eligibleEntries cwd opts directory entries).map
        (fun pc => (processFile cwd pc.1 opts pc.2 m).1) := by
  unfold traverseAndMinifyDirectory
  split
  · simp
  · exact traverseEntries_eq_eligible cwd opts m directory entries

/-- Every effect the minify dispatch emits is in `processFile`'s trace. -/
theorem processFile_ok_mem_dispatch (cwd fp : String) (opts : MOptions) (c : String)
    (m : Minifiers) (h1 : ignoreGate opts cwd fp = false) (e : FsEff)
    (he : e ∈ (dispatchMinify m opts (strToLower (extname fp)) c (stripSourceMapRefs c)).2) :
    e ∈ (processFile cwd fp opts (Except.ok c) m).2 := by
  unfold processFile
  rw [h1]
  simp only [Bool.false_eq_true, ite_false]
  try dsimp only
  split <;> (try split) <;> (try split) <;> (try split) <;>
    simp [List.mem_append, List.mem_cons, he]

/--
C8 (amended). `processFile` passes the content with pre-existing
source-map reference comments stripped (both the `//# sourceMappingURL=`
and `/*# sourceMappingURL= */` forms, then trimmed) to the JS and CSS
minifiers; the HTML minifier, however, receives the original, unstripped
content.
-/
theorem processFile_strip_before_minify (cwd fp : String) (opts : MOptions) (c : String)
    (m : Minifiers) (h1 : ignoreGate opts cwd fp = false) :
    (strToLower (extname fp) = ".js" →
      FsEff.minifyCall ".js" (stripSourceMapRefs c)
        ∈ (processFile cwd fp opts (Except.ok c) m).2)
    ∧ (strToLower (extname fp) = ".css" →
      FsEff.minifyCall ".css" (stripSourceMapRefs c)
        ∈ (processFile cwd fp opts (Except.ok c) m).2)
    ∧ (strToLower (extname fp) = ".html" →
      FsEff.minifyCall ".html" c ∈ (processFile cwd fp opts (Except.ok c) m).2) := by
  refine ⟨fun hx => ?_, fun hx => ?_, fun hx => ?_⟩ <;>
    refine processFile_ok_mem_dispatch cwd fp opts c m h1 _ ?_ <;>
    rw [hx] <;>
    simp [dispatchMinify]

/--
C9 (amended). For results of `processFile` that went through the changed
branch (status `"Minified"` or `"[DRY RUN] Minified"`), the reduction is
`originalSize − minifiedSize` and `originalSize` is the UTF-8 byte count
of the content; and for every result, `reductionPercent = 0` whenever
`originalSize = 0`. (For "No Change", "Error" and "Ignored" results,
`minifiedSize`, `reduction` and `reductionPercent` keep their initial 0 —
so `reduction = originalSize − minifiedSize` does not hold there.)
-/
theorem processFile_size_accounting (cwd fp : String) (opts : MOptions) (c : String)
    (m : Minifiers) :
    ((processFile cwd fp opts (Except.ok c) m).1.status = "Minified"
        ∨ (processFile cwd fp opts (Except.ok c) m).1.status = "[DRY RUN] Minified" →
      (processFile cwd fp opts (Except.ok c) m).1.reduction =
        ((processFile cwd fp opts (Except.ok c) m).1.originalSize : Int)
          - ((processFile cwd fp opts (Except.ok c) m).1.minifiedSize : Int)
      ∧ (processFile cwd fp opts (Except.ok c) m).1.originalSize = c.utf8ByteSize)
    ∧ ((processFile cwd fp opts (Except.ok c) m).1.originalSize = 0 →
      (processFile cwd fp opts (Except.ok c) m).1.reductionPercent = 0) := by
  unfold processFile
  split
  · refine ⟨fun hst => ?_, fun _ => rfl⟩
    rcases hst with h | h <;> simp at h
  · try dsimp only
    split
    · refine ⟨fun hst => ?_, fun _ => rfl⟩
      rcases hst with h | h <;> simp at h
    · split
      · split
        · refine ⟨fun _ => ⟨rfl, rfl⟩, fun h0 => ?_⟩
          dsimp only at h0 ⊢
          simp [h0]
        · split
          · refine ⟨fun _ => ⟨rfl, rfl⟩, fun h0 => ?_⟩
            dsimp only at h0 ⊢
            simp [h0]
          · refine ⟨fun _ => ⟨rfl, rfl⟩, fun h0 => ?_⟩
            dsimp only at h0 ⊢
            simp [h0]
      · refine ⟨fun hst => ?_, fun _ => rfl⟩
        rcases hst with h | h <;> simp at h

/--
C10. Selection and dispatch are case-insensitive in the file extension:
whenever the lower-cased extension of the joined path is `.js`, `.css` or
`.html` (e.g. `APP.JS`, `style.CSS`, `index.HTML`), the walker produces
exactly the `processFile` result for that file, and `processFile` calls
the minifier selected by the lower-cased extension (with stripped content
for JS/CSS, original content for HTML).
-/
theorem traverse_dispatch_case_insensitive (cwd : String) (opts : MOptions) (m : Minifiers)
    (parent name : String) (content : Except String String) (c : String)
    (h1 : strToLower (extname (pathJoin [parent, name])) = ".js"
        ∨ strToLower (extname (pathJoin [parent, name])) = ".css"
        ∨ strToLower (extname (pathJoin [parent, name])) = ".html")
    (h2 : ignoreGate opts cwd (pathJoin [parent, name]) = false) :
    traverseNode cwd opts m parent (FsNode.file name content) =
      [(processFile cwd (pathJoin [parent, name]) opts content m).1]
    ∧ FsEff.minifyCall (strToLower (extname (pathJoin [parent, name])))
        (if strToLower (extname (pathJoin [parent, name])) = ".html" then c
         else stripSourceMapRefs c)
      ∈ (processFile cwd (pathJoin [parent, name]) opts (Except.ok c) m).2 := by
  constructor
  · rcases h1 with hx | hx | hx <;> simp [traverseNode, supportedExts, hx]
  · refine processFile_ok_mem_dispatch cwd (pathJoin [parent, name]) opts c m h2 _ ?_
    rcases h1 with hx | hx | hx <;> rw [hx] <;> simp [dispatchMinify]

/--
C1 counterexample. At the claim's own inputs (outputDir
`dist/**/*.min.js`, basePath `/work/src`, input `/work/src/app.js`) the
computed output path is `dist/**/app.min.js` — the `**` segment is kept as
a literal directory — not `dist/app.min.js` as claimed.
-/
theorem rename_pattern_counterexample :
    (processFile "/work" "/work/src/app.js"
      { outputDir := some "dist/**/*.min.js", basePath := "/work/src",
        ignorePatterns := some [], dryRun := true }
      (Except.ok "x") idMinifiers).1.outputFilePath ≠ some "dist/app.min.js"
    ∧ (processFile "/work" "/work/src/app.js"
      { outputDir := some "dist/**/*.min.js", basePath := "/work/src",
        ignorePatterns := some [], dryRun := true }
      (Except.ok "x") idMinifiers).1.outputFilePath = some "dist/**/app.min.js" := by
  constructor
  · decide
  · decide

/--
C2 counterexample. With `dryRun = true` and `outputDir = "dist"`,
`processFile` still creates the output directory: the recursive `mkdir` of
`/w/dist` is in the effect trace.
-/
theorem dryRun_mkdir_counterexample :
    FsEff.mkdirRec "/w/dist" ∈ (processFile "/w" "/w/src/a.js"
      { dryRun := true, outputDir := some "dist", basePath := "/w/src",
        ignorePatterns := some [] }
      (Except.ok "x") (constMinifiers "y")).2 := by decide

/-- C2 witness: a dry run on a concrete file writes nothing, reads once,
and creates no directory (no outputDir configured). -/
theorem dryRun_no_writes_witness :
    (processFile "/w" "/w/a.js"
      { dryRun := true, ignorePatterns := some [], basePath := "/w" }
      (Except.ok "x") idMinifiers).2.filter FsEff.isWrite = []
    ∧ ((processFile "/w" "/w/a.js"
      { dryRun := true, ignorePatterns := some [], basePath := "/w" }
      (Except.ok "x") idMinifiers).2.filter FsEff.isRead).length ≤ 1
    ∧ (processFile "/w" "/w/a.js"
      { dryRun := true, ignorePatterns := some [], basePath := "/w" }
      (Except.ok "x") idMinifiers).2.filter FsEff.isMkdir = [] := by
  have h := processFile_dryRun_no_writes "/w" "/w/a.js"
    { dryRun := true, ignorePatterns := some [], basePath := "/w" }
    (Except.ok "x") idMinifiers rfl
  exact ⟨h.1, h.2.1, h.2.2 rfl⟩

/--
C3: evaluation of `isIgnored` at the claim's inputs. With pattern set
`["images/"]` under base `/b`, the directory `images` is ignored but the
file `images/icon.png` is **not** (the code appends `"/"`, not `"/**"`, to
path and pattern) — although the `"/**"` rule stated by the claim and the
spec would have matched it, as the third conjunct shows.
-/
theorem isIgnored_directory_pattern_eval :
    isIgnored "/b/images" ["images/"] "/b" "/b" = true
    ∧ isIgnored "/b/images/icon.png" ["images/"] "/b" "/b" = false
    ∧ minimatchBool ("images/icon.png" ++ "/**") ("images/" ++ "/**") = true := by
  refine ⟨?_, ?_, ?_⟩
  · decide
  · decide
  · decide

/-- C5 witness: a concrete erroring minifier yields the Error result with
its message and no write. -/
theorem processFile_minify_error_witness :
    (processFile "/w" "/w/a.js" { ignorePatterns := some [], basePath := "/w" }
      (Except.ok "x") (errMinifiers "boom")).1.status = "Error"
    ∧ (processFile "/w" "/w/a.js" { ignorePatterns := some [], basePath := "/w" }
      (Except.ok "x") (errMinifiers "boom")).1.error = some "boom"
    ∧ (processFile "/w" "/w/a.js" { ignorePatterns := some [], basePath := "/w" }
      (Except.ok "x") (errMinifiers "boom")).2.filter FsEff.isWrite = [] := by
  have h := processFile_minify_error "/w" "/w/a.js"
    { ignorePatterns := some [], basePath := "/w" } "x" "boom" (errMinifiers "boom")
    (by decide) rfl
  exact ⟨h.1, h.2.1, h.2.2.1⟩

/-- C6 witness: an identity minifier on a concrete file gives "No Change",
no write, and the same outcome with and without dry-run. -/
theorem processFile_no_change_witness :
    processFile "/w" "/w/a.js"
      { ({ ignorePatterns := some [], basePath := "/w" } : MOptions) with dryRun := true }
      (Except.ok "x") idMinifiers =
    processFile "/w" "/w/a.js"
      { ({ ignorePatterns := some [], basePath := "/w" } : MOptions) with dryRun := false }
      (Except.ok "x") idMinifiers
    ∧ (processFile "/w" "/w/a.js" { ignorePatterns := some [], basePath := "/w" }
      (Except.ok "x") idMinifiers).1.status = "No Change"
    ∧ (processFile "/w" "/w/a.js" { ignorePatterns := some [], basePath := "/w" }
      (Except.ok "x") idMinifiers).2.filter FsEff.isWrite = [] :=
  processFile_no_change "/w" "/w/a.js" { ignorePatterns := some [], basePath := "/w" }
    "x" none idMinifiers (by decide) rfl

/--
C7 counterexample. With pattern `"images/"`, the traversal of a tree
containing `images/icon.js` yields **no** FileResult at all, although
`icon.js` has a supported extension and `isIgnored` does not ignore it —
the ignored directory swallows it.
-/
theorem ignored_dir_file_counterexample :
    traverseAndMinifyDirectory "/b"
      { ignorePatterns := some ["images/"], basePath := "/b" }
      idMinifiers "/b"
      (FsEntries.cons
        (FsNode.dir "images"
          (FsEntries.cons (FsNode.file "icon.js" (Except.ok "x")) FsEntries.nil))
        FsEntries.nil) = []
    ∧ isIgnored "/b/images/icon.js" ["images/"] "/b" "/b" = false
    ∧ strToLower (extname "/b/images/icon.js") = ".js" := by
  refine ⟨?_, ?_, ?_⟩
  · decide
  · decide
  · decide

/--
C8 counterexample. An HTML file whose content embeds a
`//# sourceMappingURL=` reference is handed to the HTML minifier
unstripped: the minify call carries the original content, which the
stripping function would have changed.
-/
theorem html_not_stripped_counterexample :
    FsEff.minifyCall ".html" "<p>x</p>\n//# sourceMappingURL=old.js.map"
      ∈ (processFile "/w" "/w/index.html"
        { ignorePatterns := some [], basePath := "/w" }
        (Except.ok "<p>x</p>\n//# sourceMappingURL=old.js.map") idMinifiers).2
    ∧ stripSourceMapRefs "<p>x</p>\n//# sourceMappingURL=old.js.map"
        ≠ "<p>x</p>\n//# sourceMappingURL=old.js.map" := by
  constructor
  · decide
  · decide

/-- C8 witness: a concrete JS file's minify call carries the stripped
content. -/
theorem strip_before_minify_witness :
    FsEff.minifyCall ".js"
        (stripSourceMapRefs "var x=1;\n//# sourceMappingURL=a.map")
      ∈ (processFile "/w" "/w/a.js" { ignorePatterns := some [], basePath := "/w" }
        (Except.ok "var x=1;\n//# sourceMappingURL=a.map") idMinifiers).2
    ∧ stripSourceMapRefs "var x=1;\n//# sourceMappingURL=a.map" = "var x=1;" := by
  constructor
  · exact (processFile_strip_before_minify "/w" "/w/a.js"
      { ignorePatterns := some [], basePath := "/w" }
      "var x=1;\n//# sourceMappingURL=a.map" idMinifiers (by decide)).1 (by decide)
  · decide

/--
C9 counterexample. A "No Change" result violates
`reduction = originalSize − minifiedSize`: minifiedSize stays 0, so for a
3-byte unchanged file the claimed equation would demand reduction 3, but
reduction is 0.
-/
theorem no_change_sizes_counterexample :
    (processFile "/w" "/w/a.js" { ignorePatterns := some [], basePath := "/w" }
      (Except.ok "abc") idMinifiers).1.status = "No Change"
    ∧ (processFile "/w" "/w/a.js" { ignorePatterns := some [], basePath := "/w" }
      (Except.ok "abc") idMinifiers).1.reduction ≠
      ((processFile "/w" "/w/a.js" { ignorePatterns := some [], basePath := "/w" }
        (Except.ok "abc") idMinifiers).1.originalSize : Int) -
      ((processFile "/w" "/w/a.js" { ignorePatterns := some [], basePath := "/w" }
        (Except.ok "abc") idMinifiers).1.minifiedSize : Int) := by
  constructor
  · decide
  · decide

/-- C9 witness: on a genuinely minified file the equation holds with UTF-8
byte sizes, and an empty file's reduction percentage is 0. -/
theorem size_accounting_witness :
    ((processFile "/w" "/w/a.js" { ignorePatterns := some [], basePath := "/w" }
      (Except.ok "ab") (constMinifiers "y")).1.reduction =
      ((processFile "/w" "/w/a.js" { ignorePatterns := some [], basePath := "/w" }
        (Except.ok "ab") (constMinifiers "y")).1.originalSize : Int) -
      ((processFile "/w" "/w/a.js" { ignorePatterns := some [], basePath := "/w" }
        (Except.ok "ab") (constMinifiers "y")).1.minifiedSize : Int)
      ∧ (processFile "/w" "/w/a.js" { ignorePatterns := some [], basePath := "/w" }
        (Except.ok "ab") (constMinifiers "y")).1.originalSize =
          ("ab" : String).utf8ByteSize)
    ∧ (processFile "/w" "/w/b.js" { ignorePatterns := some [], basePath := "/w" }
      (Except.ok "") idMinifiers).1.reductionPercent = 0 := by
  constructor
  · exact (processFile_size_accounting "/w" "/w/a.js"
      { ignorePatterns := some [], basePath := "/w" } "ab" (constMinifiers "y")).1
      (Or.inl (by decide))
  · exact (processFile_size_accounting "/w" "/w/b.js"
      { ignorePatterns := some [], basePath := "/w" } "" idMinifiers).2 (by decide)

/-- C10 witness: `APP.JS` is selected by the walker and dispatched to the
JS minifier exactly like `app.js`. -/
theorem case_insensitive_witness :
    traverseNode "/w" { ignorePatterns := some [], basePath := "/w" } idMinifiers
      "/w" (FsNode.file "APP.JS" (Except.ok "x")) =
      [(processFile "/w" (pathJoin ["/w", "APP.JS"])
        { ignorePatterns := some [], basePath := "/w" } (Except.ok "x") idMinifiers).1]
    ∧ FsEff.minifyCall (strToLower (extname (pathJoin ["/w", "APP.JS"])))
        (if strToLower (extname (pathJoin ["/w", "APP.JS"])) = ".html" then "x"
         else stripSourceMapRefs "x")
      ∈ (processFile "/w" (pathJoin ["/w", "APP.JS"])
        { ignorePatterns := some [], basePath := "/w" } (Except.ok "x") idMinifiers).2 :=
  traverse_dispatch_case_insensitive "/w" { ignorePatterns := some [], basePath := "/w" }
    idMinifiers "/w" "APP.JS" (Except.ok "x") "x" (Or.inl (by decide)) (by decide)

end NM
